import Mathlib

/-!
# Verification of the colcon-distro materialization engine

A shallow embedding of the parts of colcon-distro that the claims C1..C10
concern, translated from the Python sources:

* `colcon_distro/package.py` (package descriptor serialization),
* `colcon_distro/repository_descriptor.py` (repository descriptors),
* `colcon_distro/database.py` (the store),
* `colcon_distro/model.py` (the engine / single-flight coalescer),
* `colcon_distro/download.py` (fetcher backends, LFS, version resolution).

Modelling conventions:

* Python `dict`s are association lists in insertion order with unique keys;
  dict equality (which in Python is order-insensitive) is stated where needed
  via key lookups or pair-`Finset`s, never assumed from list equality.
* Python `set`s are represented by a member list in some iteration order
  (a representative up to permutation); every theorem that depends on a set
  representative is stated to be invariant under permutation of it, or only
  uses it through an order-insensitive view.
* `asyncio` cooperative concurrency: code between two `await` points runs
  atomically; suspension points are explicit in the step functions below.
* Fallible Python code returns a `PyResult`; a raised exception is `.exc`.
* Equality of the serialized dict values produced here implies byte-identical
  output of any serializer applied to them (`json.dumps` is a function), which
  is how "byte-identical" claims are stated.
-/

namespace ColconDistro

/-- Python `dict` lookup (`d[k]` / `d.get(k)`) on the association-list model:
the first pair with the matching key wins (keys are unique in a real dict). -/
def alookup {κ α : Type} [DecidableEq κ] (k : κ) : List (κ × α) → Option α
  | [] => none
  | kv :: rest => if kv.1 = k then some kv.2 else alookup k rest

/-- Python `dict` assignment `d[k] = v`: replaces the value in place if the key
is present (keeping its position), otherwise appends the new key at the end
(insertion order). Models `database.py` line 136 and similar mutations. -/
def dictSet {κ α : Type} [DecidableEq κ] (l : List (κ × α)) (k : κ) (v : α) : List (κ × α) :=
  match l with
  | [] => [(k, v)]
  | kv :: rest => if kv.1 = k then (k, v) :: rest else kv :: dictSet rest k v

/-- One `set.add(a)` on the representative list of a Python set: a no-op when
the element is already a member, otherwise appended. -/
def setAdd {α : Type} [DecidableEq α] (l : List α) (a : α) : List α :=
  if a ∈ l then l else l ++ [a]

/-- Building a Python set by inserting the elements of `l` in order
(`set()` then repeated `.add`), as in `descriptor_from_dict`'s dependency
reconstruction. The result is the first-occurrence representative. -/
def pySet {α : Type} [DecidableEq α] (l : List α) : List α := l.foldl setAdd []

/-- Python `<=` on `str` (lexicographic by code point), as a Bool for sorting. -/
def strLeB (a b : String) : Bool := decide (a ≤ b)

/-- Insert into an already sorted list (the building block of the sort model). -/
def insertSorted {α : Type} (le : α → α → Bool) (a : α) : List α → List α
  | [] => [a]
  | b :: t => if le a b then a :: b :: t else b :: insertSorted le a t

/-- Model of Python `list.sort()`: insertion sort by the given comparison.
Python's timsort is stable, and every use in this development either sorts
elements of a set (no duplicates) or sorts by a key that is unique in the
list, so any correct sort — in particular this one — produces the same
output as Python. -/
def pySortBy {α : Type} (le : α → α → Bool) (l : List α) : List α :=
  l.foldr (insertSorted le) []

/-- `dependency_strs.sort()` (`package.py` line 34). -/
def pySortStr (l : List String) : List String := pySortBy strLeB l

/-- Metadata values (`metadata` dicts hold small scalar values). -/
inductive MetaVal where
  | s (v : String)
  | i (v : Int)
  | b (v : Bool)
deriving DecidableEq

/-- `colcon_core.package_descriptor.PackageDescriptor`, as used by
`package.py`: `name`, `path` (its string form; `pathlib` normalization of
already-normalized relative paths is the identity), `type`, `dependencies`
(a dict from dependency kind to a set of dependency names — colcon's
`DependencyDescriptor` is compared by its name string, which is what
`dependency_str` projects to), and `metadata` (a dict). -/
structure PkgDesc where
  name : String
  path : String
  type : String
  dependencies : List (String × List String)
  metadata : List (String × MetaVal)
deriving DecidableEq

/-- The serialized package dict produced by `descriptor_to_dict`:
keys `name, path, type, depends` always, `metadata` only when an allowlist
was supplied. -/
structure PkgDict where
  name : String
  path : String
  type : String
  depends : List (String × List String)
  metadata : Option (List (String × MetaVal))
deriving DecidableEq

/-- The tuple `('build', 'run', 'test')` iterated in `descriptor_to_dict`. -/
def canonicalDepKinds : List String := ["build", "run", "test"]

/-- `package.py` lines 23-46, `descriptor_to_dict(pd, metadata_inclusions)`:
emits `name, path, type`; `depends` holds, for each kind in
`('build', 'run', 'test')` that is present with a non-empty set, the sorted
list of dependency names; `metadata` is included exactly when
`metadata_inclusions is not None`, filtered to the allowlisted keys
(in `pd.metadata`'s insertion order). -/
def descriptor_to_dict (pd : PkgDesc) (metadata_inclusions : Option (List String)) : PkgDict :=
  { name := pd.name
    path := pd.path
    type := pd.type
    depends := canonicalDepKinds.filterMap fun deptype =>
      match alookup deptype pd.dependencies with
      | none => none
      | some deps => if deps = [] then none else some (deptype, pySortStr deps)
    metadata := metadata_inclusions.map fun incl =>
      pd.metadata.filter fun kv => incl.contains kv.1 }

/-- `package.py` lines 49-58, `descriptor_from_dict(d)`: rebuilds the
descriptor; `metadata` is taken from the dict when present (else the
constructor default `{}`); each `depends[k]` list is poured into the
set `pd.dependencies[k]` (the defaultdict key is only created when the
list is non-empty). -/
def descriptor_from_dict (d : PkgDict) : PkgDesc :=
  { name := d.name
    path := d.path
    type := d.type
    dependencies := d.depends.filterMap fun kv =>
      let deps := pySet kv.2
      if deps = [] then none else some (kv.1, deps)
    metadata := d.metadata.getD [] }

/-- `repository_descriptor.py`, `RepositoryDescriptor.__slots__`: all fields
default to `None` except `metadata = {}`; `packages` is a collection of
`PackageDescriptor` (represented by a member list). -/
structure RepoDesc where
  name : Option String
  type : Option String
  url : Option String
  version : Option String
  path : Option String
  packages : Option (List PkgDesc)
  metadata : List (String × MetaVal)
deriving DecidableEq

/-- The dict produced by `RepositoryDescriptor.to_dict`: keys
`type, url, version, packages` always, `metadata` only when an allowlist was
supplied. -/
structure RepoDict where
  type : Option String
  url : Option String
  version : Option String
  packages : List PkgDict
  metadata : Option (List (String × MetaVal))
deriving DecidableEq

/-- The `key=itemgetter('name')` comparison used by
`RepositoryDescriptor.packages_dicts`. -/
def pkgLeB (a b : PkgDict) : Bool := strLeB a.name b.name

namespace RepositoryDescriptor

/-- Core of `repository_descriptor.py` lines 85-93 (`packages_dicts`),
applied to the member list of `self.packages`: serialize every package and
sort the dicts by their `name` key. -/
def packages_dicts_list (pkgs : List PkgDesc) (metadata_inclusions : Option (List String)) :
    List PkgDict :=
  pySortBy pkgLeB (pkgs.map (descriptor_to_dict · metadata_inclusions))

/-- `packages_dicts` itself: `assert self.packages is not None` means the
call only produces a value when `packages` is populated. -/
def packages_dicts (rd : RepoDesc) (metadata_inclusions : Option (List String)) :
    Option (List PkgDict) :=
  rd.packages.map fun pkgs => packages_dicts_list pkgs metadata_inclusions

/-- `repository_descriptor.py` lines 64-76, `to_dict(metadata_inclusions)`:
`type, url, version, packages` always; `metadata` exactly when
`metadata_inclusions is not None`, filtered to the allowlisted keys. -/
def to_dict (rd : RepoDesc) (metadata_inclusions : Option (List String)) : Option RepoDict :=
  (packages_dicts rd metadata_inclusions).map fun pds =>
    { type := rd.type
      url := rd.url
      version := rd.version
      packages := pds
      metadata := metadata_inclusions.map fun incl =>
        rd.metadata.filter fun kv => incl.contains kv.1 }

/-- `repository_descriptor.py` lines 78-83, `parse_packages_dicts`: sets
`self.packages` to the set of descriptors parsed from the dicts. The Python
set is built from freshly constructed objects, so it retains every element;
the construction-order list is its representative. -/
def parse_packages_dicts (rd : RepoDesc) (pds : List PkgDict) : RepoDesc :=
  { rd with packages := some (pds.map descriptor_from_dict) }

end RepositoryDescriptor

/-- A row of the `repo_states` table (`database.py` schema): identity columns,
the serialized `metadata` column, and the serialized `package_descriptors`
column. The column contents are kept as the Lean values handed to the JSON
serializer; equal values serialize to identical column bytes. -/
structure RepoStateRow where
  id : Nat
  name : Option String
  type : Option String
  url : Option String
  version : Option String
  metadata : List (String × MetaVal)
  packages : Option (List PkgDict)
deriving DecidableEq

/-- Modelled from the spec: `database.py` line 132 calls
`desc.metadata_json()`, a serializer method that is absent from the
`repository_descriptor.py` in this tree (version skew). Per §4.1 of the spec
it serializes the descriptor's current `metadata` dict; we keep the dict
value itself as the serialized column content. -/
def metadata_json (rd : RepoDesc) : List (String × MetaVal) := rd.metadata

/-- Modelled from the spec: `database.py` line 133 calls
`desc.packages_json()`, likewise absent from `repository_descriptor.py`.
Per §4.1 it stores the canonical package JSON, i.e. the `packages_dicts`
serialization of the current `packages` field (storage uses no metadata
allowlist by default, `cache.metadata_inclusions` defaulting to empty). -/
def packages_json (rd : RepoDesc) : Option (List PkgDict) :=
  RepositoryDescriptor.packages_dicts rd none

/-- `database.py` lines 121-137, `insert_repo_state(desc)`: the query
argument tuple — including the serialized metadata and packages columns —
is built first; the row is inserted; only then is
`desc.metadata['repo_state_id'] = cursor.lastrowid` assigned. Returns the
inserted row and the mutated descriptor. -/
def insert_repo_state (rd : RepoDesc) (rowid : Nat) : RepoStateRow × RepoDesc :=
  let row : RepoStateRow :=
    { id := rowid
      name := rd.name
      type := rd.type
      url := rd.url
      version := rd.version
      metadata := metadata_json rd
      packages := packages_json rd }
  (row, { rd with metadata := dictSet rd.metadata "repo_state_id" (MetaVal.i rowid) })

/-- `database.py` lines 102-119, `fetch_repo_state(desc)`: looks the identity
tuple up in `repo_states`; on a hit the descriptor's `metadata` and
`packages` are replaced by the parsed column contents and
`metadata['repo_state_id']` is set to the row id; on a miss
`RepositoryNotFound` is raised (modelled as `none`). -/
def fetch_repo_state (db : List RepoStateRow) (rd : RepoDesc) : Option RepoDesc :=
  match db.find? fun row =>
      row.name == rd.name && row.type == rd.type && row.url == rd.url
        && row.version == rd.version with
  | none => none
  | some row =>
      some { rd with
        metadata := dictSet row.metadata "repo_state_id" (MetaVal.i row.id)
        packages := row.packages.map (·.map descriptor_from_dict) }

/-- Python exceptions raised by the modelled code paths. -/
inductive PyExc where
  | downloadError (msg : String)
  | modelError (msg : String)
  | indexError
  | nameError (missing : String)
deriving DecidableEq

/-- Result of running a piece of Python code: a returned value, or a raised
exception propagating out. -/
inductive PyResult (α : Type) where
  | ok (val : α)
  | exc (e : PyExc)
deriving DecidableEq

/-- Outcome of one execution of the body of `Model.get_repo_state`
(`model.py` lines 133-163): the returned value or raised exception, the
database after the call, and how many scoped downloads and
`insert_repo_state` calls the execution performed. -/
structure RepoStateRun where
  result : PyResult RepoDesc
  db : List RepoStateRow
  downloads : Nat
  inserts : Nat
deriving DecidableEq

/-- `model.py` lines 133-163, the body of `Model.get_repo_state`, with the
scoped download-and-discovery stage abstracted as its outcome `download`
(either the `DownloadError` it raised or the discovered package list with
repository-relative paths). On a database hit the populated descriptor is
returned. On a miss: a raised `DownloadError` propagates — there is no
`try`/`except` around the scoped block; `augment_repository` swallows all
extension exceptions and only touches metadata, so it cannot raise; a
discovery yielding zero packages raises
`ModelError("No packages discovered ...")` before any insertion; otherwise
`insert_repo_state` runs (`nextRowId` standing for `cursor.lastrowid`) and
the descriptor — now carrying `repo_state_id` — is returned. -/
def get_repo_state (db : List RepoStateRow) (rd : RepoDesc)
    (download : PyResult (List PkgDesc)) (nextRowId : Nat) : RepoStateRun :=
  match fetch_repo_state db rd with
  | some populated => { result := .ok populated, db := db, downloads := 0, inserts := 0 }
  | none =>
      match download with
      | .exc e =>
          { result := .exc e, db := db, downloads := 1, inserts := 0 }
      | .ok pkgs =>
          let rd1 := { rd with packages := some pkgs }
          if pkgs = [] then
            { result := .exc (.modelError "No packages discovered"), db := db
              downloads := 1, inserts := 0 }
          else
            let ins := insert_repo_state rd1 nextRowId
            { result := .ok ins.2, db := db ++ [ins.1], downloads := 1, inserts := 1 }

/-- State of the `Model.in_progress` map restricted to one key (one identity
tuple): the registered future for that key, if any; how many times the
underlying work was launched (`asyncio.ensure_future(fn(self, *args))`);
and, per arrived caller, the id of the future it awaits. Future ids number
the launches. -/
structure FlightState where
  entry : Option Nat
  launches : Nat
  waiters : List Nat
deriving DecidableEq

/-- No caller has arrived and the key is absent from `in_progress`. -/
def flightInit : FlightState := { entry := none, launches := 0, waiters := [] }

/-- One caller reaching `remember_progress.wrapper` (`model.py` lines 67-77):
`await (self.in_progress.get(ident) or _initial())`. Reading the map, and —
when the key is absent — registering the new future
(`self.in_progress[ident] = ensure_future(...)`, the first statement of
`_initial`), happen with no intervening `await`, so under the cooperative
event loop each arrival is a single atomic step. An arrival that finds a
future awaits it; otherwise it launches the work and awaits the new future. -/
def flightEnter (s : FlightState) : FlightState :=
  match s.entry with
  | some f => { s with waiters := s.waiters ++ [f] }
  | none =>
      { entry := some s.launches
        launches := s.launches + 1
        waiters := s.waiters ++ [s.launches] }

/-- Completion of the in-flight work (`model.py` lines 73-76): whether the
future resolved with a value or an exception, the `finally:` block deletes
the map entry, so the key is free again; every waiter of that future then
observes the same resolved outcome. -/
def flightComplete (s : FlightState) : FlightState := { s with entry := none }

/-- The marker list `['r','e','f','s','/']`, i.e. `"refs/"` as characters. -/
def refsSep : List Char := ['r', 'e', 'f', 's', '/']

/-- Python `ref.split("refs/")` on the character list of `ref`: scan left to
right; each non-overlapping occurrence of the separator ends the current
piece. (`"refs/tags/refs/v1".split("refs/") == ['', 'tags/', 'v1']`.) -/
def pySplitRefs : List Char → List (List Char)
  | 'r' :: 'e' :: 'f' :: 's' :: '/' :: t => [] :: pySplitRefs t
  | c :: cs =>
      match pySplitRefs cs with
      | [] => [[c]]
      | p :: ps => (c :: p) :: ps
  | [] => [[]]

/-- Whether `"refs/"` occurs anywhere in the character list. -/
def containsRefsSep : List Char → Bool
  | [] => false
  | c :: cs => refsSep.isPrefixOf (c :: cs) || containsRefsSep cs

/-- `model.py` lines 91-93: `if ref.startswith("refs/"): ref =
ref.split("refs/")[1]` — note the `[1]`: the piece between the first and
second occurrence of `"refs/"`, not simply the ref with the prefix removed.
The index is in range because the separator occurs, so the split has at
least two pieces. -/
def strip_ref (ref : String) : String :=
  if refsSep.isPrefixOf ref.toList then String.mk ((pySplitRefs ref.toList).getD 1 [])
  else ref

/-- The single-flight key `remember_progress` computes for a `get_set` call
(`model.py` line 69): `(fn.__name__, dist_name, ref)` with the ORIGINAL
arguments — the `refs/` stripping happens later, inside the wrapped body. -/
def get_set_flight_key (dist ref : String) : String × String × String :=
  ("get_set", dist, ref)

/-- The `(dist, ref)` key under which `get_set` reads (`db.fetch_set`) and
writes (`db.insert_set`) the set row: both use the stripped ref
(`model.py` lines 98 and 129). -/
def get_set_db_key (dist ref : String) : String × String := (dist, strip_ref ref)

/-- The caching skeleton of `get_set` (`model.py` lines 91-131) against the
`sets` table, with the materialization work (distro download, per-repository
fan-out) abstracted into the id `fresh` of the set row it would insert:
a hit on `fetch_set` returns the stored row; a miss materializes and inserts
under the same key. This is the part of `get_set` that claim C7 is about. -/
def run_get_set (store : List ((String × String) × Nat)) (dist ref : String) (fresh : Nat) :
    Nat × List ((String × String) × Nat) :=
  match alookup (get_set_db_key dist ref) store with
  | some setId => (setId, store)
  | none => (fresh, store ++ [(get_set_db_key dist ref, fresh)])

/-- Regex `\w` (ASCII range, which is all these URLs contain). -/
def isWordChar (c : Char) : Bool := c.isAlphanum || c == '_'

/-- The character class `[\w.-]` of the `server` group. -/
def isServerChar (c : Char) : Bool := isWordChar c || c == '.' || c == '-'

/-- The character class of the `repo_path` group: word characters plus '/'
and '-' (note: no dot). -/
def isPathChar (c : Char) : Bool := isWordChar c || c == '/' || c == '-'

/-- `download.py` line 276, `GitRev.URL_REGEX`: a scheme alternation
(a `\w+` scheme followed by `://`, or the literal `git@`), then the
`server` group over the class `[\w.-]`, one separator `:` or `/`, the
`repo_path` group over word characters plus '/' and '-', an optional
literal `.git`, and the end anchor — applied with `re.match`. The pattern
is deterministic, so greedy runs need no backtracking: `:` cannot appear in
a `\w+` scheme run, so the scheme alternative matches iff the maximal word
run is followed by `://`; the separator `:` or `/` is not a server
character, so `server` must be the maximal server-character run; `.` is not
a path character, so `repo_path` is the maximal path-character run and the
leftover must be empty or exactly `.git`. Returns the
`(server, repo_path)` groups. -/
def url_regex_match (url : String) : Option (String × String) :=
  let cs := url.toList
  let schemeRun := cs.takeWhile isWordChar
  let rest? : Option (List Char) :=
    if schemeRun ≠ [] ∧ ("://".toList.isPrefixOf (cs.drop schemeRun.length)) then
      some (cs.drop (schemeRun.length + 3))
    else if "git@".toList.isPrefixOf cs then some (cs.drop 4)
    else none
  match rest? with
  | none => none
  | some rest =>
      let server := rest.takeWhile isServerChar
      if server = [] then none
      else
        match rest.drop server.length with
        | [] => none
        | sep :: r2 =>
            if sep == ':' || sep == '/' then
              let repoPath := r2.takeWhile isPathChar
              let leftover := r2.drop repoPath.length
              if leftover = [] ∨ leftover = ".git".toList then
                some (String.mk server, String.mk repoPath)
              else none
            else none

/-- `GitLabDownloader.SERVER_REGEX = ^gitlab\.` applied with `re.match`
(an anchored prefix match). -/
def gitlab_server_match (server : String) : Bool :=
  "gitlab.".toList.isPrefixOf server.toList

/-- `GithubDownloader.SERVER_REGEX = ^github\.com` applied with `re.match`. -/
def github_server_match (server : String) : Bool :=
  "github.com".toList.isPrefixOf server.toList

/-- The two entries of `GitRev.DOWNLOADERS` (`download.py` line 277); there
is no Bitbucket or local-file backend in this module. -/
inductive Backend where
  | gitlab
  | github
deriving DecidableEq

/-- `download.py` lines 287-291, `GitRev._get_downloader`: first matching
SERVER_REGEX wins (GitLab is tried before GitHub). When no backend matches,
the code executes `raise DownloadError(f"Unable to find downloader for URL:
{url}")` — but `url` is not a name in scope there (the attribute is
`self.url`), so evaluating the f-string raises `NameError: name 'url' is not
defined` before any `DownloadError` is constructed. -/
def get_downloader (server : String) : PyResult Backend :=
  if gitlab_server_match server then .ok .gitlab
  else if github_server_match server then .ok .github
  else .exc (.nameError "url")

/-- `download.py` lines 279-285, `GitRev.__init__`: an URL the regex does not
match raises `DownloadError("Unable to parse version control URL: ...")`;
otherwise the matched groups select the backend via `_get_downloader`. -/
def git_rev_init (url : String) : PyResult (String × String × Backend) :=
  match url_regex_match url with
  | none => .exc (.downloadError "Unable to parse version control URL")
  | some (server, repoPath) =>
      match get_downloader server with
      | .ok b => .ok (server, repoPath, b)
      | .exc e => .exc e

/-- Python `int != str`: comparisons between an `int` and a `str` are never
equal, so `!=` across these two types is always `True`. In
`download.py` line 208 the left side `lfs_file.tell()` is an `int` and the
right side `lfs_size` is the string captured by the pointer-file regex
(`get_lfs_objects` never converts it). -/
def pyNeNatStr (_tell : Nat) (_size : String) : Bool := true

/-- `download.py` lines 204-209, the size verification at the end of
`download_all_lfs._downloader`: after writing the object the code runs
`if not lfs_file.tell() != lfs_size: raise DownloadError(...)` — it raises
when the `!=` comparison is False, i.e. when the sizes are "equal", and
since the comparison is `int` vs `str` it is always True, so the branch
never raises at all. -/
def lfs_size_check (written : Nat) (declaredSize : String) : PyResult Unit :=
  if pyNeNatStr written declaredSize then .ok ()
  else .exc (.downloadError "LFS object size mismatch")

/-- One `_downloader(obj)` coroutine (`download.py` lines 196-209): a
non-200 status raises `DownloadError`; the body is streamed to disk
(`written` bytes); then the size verification above runs. -/
def lfs_download_object (status : Nat) (written : Nat) (declaredSize : String) :
    PyResult Unit :=
  if status ≠ 200 then .exc (.downloadError "HTTP error fetching LFS object")
  else lfs_size_check written declaredSize

/-- The `asyncio.gather` over all LFS object downloaders
(`download.py` line 224): every downloader runs; the first exception, if
any, propagates. Each object is given by its HTTP status, the byte count
written to disk, and the declared size string from its pointer file. -/
def download_all_lfs (objs : List (Nat × Nat × String)) : PyResult Unit :=
  match objs with
  | [] => .ok ()
  | (status, written, size) :: rest =>
      match lfs_download_object status written size with
      | .ok _ => download_all_lfs rest
      | .exc e => .exc e

/-- Python `bytes.split()` / `str.split()` with no separator: split on runs
of whitespace, discarding empty pieces. `cur` accumulates the current token
in reverse. -/
def wsTokensAux (cur : List Char) : List Char → List (List Char)
  | [] => if cur = [] then [] else [cur.reverse]
  | c :: cs =>
      if c.isWhitespace then
        if cur = [] then wsTokensAux [] cs
        else cur.reverse :: wsTokensAux [] cs
      else wsTokensAux (c :: cur) cs

/-- `git_output.split()` from `download.py` line 306. -/
def pySplitWs (l : List Char) : List (List Char) := wsTokensAux [] l

/-- The first line of a process output (up to the first newline). -/
def firstLine (l : List Char) : List Char := l.takeWhile fun c => c != '\n'

/-- What `asyncio.create_subprocess_exec('git', 'ls-remote', url, version,
stdout=PIPE)` followed by `communicate()` yields: captured stdout, and
`None` for stderr because no `stderr=PIPE` was requested
(`download.py` lines 301-303). -/
structure ProcOutput where
  stdout : List Char
  stderr : Option (List Char)
deriving DecidableEq

/-- The subprocess result of `git ls-remote` as `version_hash_lookup` sees
it: stderr is never captured. -/
def run_git_ls_remote (stdout : List Char) : ProcOutput :=
  { stdout := stdout, stderr := none }

/-- `download.py` lines 300-306, `GitRev.version_hash_lookup`: the
`if git_stderr:` branch only logs (and is dead, since stderr is `None`);
the return value is `git_output.split()[0]` — the first whitespace-delimited
token of the whole output; on empty (or all-whitespace) output the `[0]`
indexing of the empty list raises `IndexError`, not `DownloadError`. -/
def version_hash_lookup (proc : ProcOutput) : PyResult (List Char) :=
  match pySplitWs proc.stdout with
  | [] => .exc .indexError
  | t :: _ => .ok t

/-- Python equality of two dependency dicts (`pd1.dependencies ==
pd2.dependencies`): dict equality is key-extensional and the values are
sets, compared extensionally — for every kind, the looked-up value sets
coincide. -/
def depsSetEquiv (d₁ d₂ : List (String × List String)) : Prop :=
  ∀ k : String, (alookup k d₁).map List.toFinset = (alookup k d₂).map List.toFinset

/-- "Re-serialized with the same metadata allowlist": a serialized
`metadata` entry (present or absent) is compatible with an allowlist option
when both are absent, or both are present and every serialized key is
allowlisted. -/
def metaCompat : Option (List (String × MetaVal)) → Option (List String) → Bool
  | none, none => true
  | some m, some incl => m.all fun kv => incl.contains kv.1
  | _, _ => false

/-- A package dict in canonical serialized form (§4.1 of the spec): the
`depends` keys are some of `build, run, test` in that order, and each value
list is non-empty and strictly sorted (sorted, duplicate-free). -/
def canonicalPkgDict (d : PkgDict) : Prop :=
  (d.depends.map Prod.fst).Sublist canonicalDepKinds
    ∧ ∀ kv ∈ d.depends, kv.2 ≠ [] ∧ List.Sorted (· < ·) kv.2

/-! ## Helper lemmas -/

theorem alookup_eq_none_of_forall_ne {κ α : Type} [DecidableEq κ] (k : κ)
    (l : List (κ × α)) (h : ∀ kv ∈ l, kv.1 ≠ k) : alookup k l = none := by
  induction l with
  | nil => rfl
  | cons kv rest ih =>
      simp only [alookup]
      rw [if_neg (h kv (List.mem_cons_self kv rest))]
      exact ih fun kv' hm => h kv' (List.mem_cons_of_mem _ hm)

theorem mem_of_alookup_eq_some {κ α : Type} [DecidableEq κ] {k : κ}
    {l : List (κ × α)} {v : α} (h : alookup k l = some v) : (k, v) ∈ l := by
  induction l with
  | nil => simp [alookup] at h
  | cons kv rest ih =>
      by_cases hk : kv.1 = k
      · simp only [alookup, if_pos hk] at h
        cases h
        exact List.mem_cons.mpr (Or.inl (by rw [← hk]))
      · simp only [alookup, if_neg hk] at h
        exact List.mem_cons_of_mem _ (ih h)

theorem alookup_eq_some_of_mem {κ α : Type} [DecidableEq κ] {k : κ}
    {l : List (κ × α)} {v : α} (hm : (k, v) ∈ l) (hnd : (l.map Prod.fst).Nodup) :
    alookup k l = some v := by
  induction l with
  | nil => cases hm
  | cons kv rest ih =>
      rcases List.mem_cons.mp hm with heq | htail
      · rw [← heq]
        simp [alookup]
      · have hk : kv.1 ≠ k := by
          intro hcontra
          have : k ∈ rest.map Prod.fst := List.mem_map_of_mem Prod.fst htail
          simp only [List.map_cons, List.nodup_cons] at hnd
          exact hnd.1 (hcontra ▸ this)
        simp only [alookup, if_neg hk]
        exact ih htail (List.nodup_cons.mp (by simpa using hnd)).2

theorem dictSet_eq_append {α : Type} {k : String} (l : List (String × α)) (v : α)
    (h : alookup k l = none) : dictSet l k v = l ++ [(k, v)] := by
  induction l with
  | nil => rfl
  | cons kv rest ih =>
      simp only [alookup] at h
      by_cases hk : kv.1 = k
      · rw [if_pos hk] at h
        cases h
      · rw [if_neg hk] at h
        simp [dictSet, if_neg hk, ih h]

theorem pySet_append_of_nodup {α : Type} [DecidableEq α] :
    ∀ (l acc : List α), (acc ++ l).Nodup → l.foldl setAdd acc = acc ++ l := by
  intro l
  induction l with
  | nil => intro acc _; simp
  | cons a t ih =>
      intro acc hnd
      have ha : a ∉ acc := by
        intro hmem
        have hperm : (acc ++ a :: t).Nodup := hnd
        rw [List.nodup_append] at hperm
        exact hperm.2.2 hmem (List.mem_cons_self a t)
      have hstep : setAdd acc a = acc ++ [a] := by
        simp [setAdd, ha]
      simp only [List.foldl_cons, hstep]
      have : (acc ++ [a]) ++ t = acc ++ a :: t := by simp
      rw [ih (acc ++ [a]) (by rw [this]; exact hnd), this]

theorem pySet_of_nodup {α : Type} [DecidableEq α] (l : List α) (h : l.Nodup) :
    pySet l = l := by
  have := pySet_append_of_nodup l [] (by simpa using h)
  simpa [pySet] using this

theorem strLeB_iff (a b : String) : strLeB a b = true ↔ a ≤ b := by
  simp [strLeB]

theorem insertSorted_perm {α : Type} (le : α → α → Bool) (a : α) :
    ∀ l : List α, (insertSorted le a l).Perm (a :: l) := by
  intro l
  induction l with
  | nil => exact List.Perm.refl _
  | cons b t ih =>
      simp only [insertSorted]
      by_cases h : le a b = true
      · rw [if_pos h]
      · rw [if_neg h]
        exact (ih.cons b).trans (List.Perm.swap a b t)

theorem insertSorted_pairwise {α : Type} (le : α → α → Bool)
    (htrans : ∀ a b c, le a b = true → le b c = true → le a c = true)
    (htot : ∀ a b, le a b || le b a) (a : α) :
    ∀ {l : List α}, List.Pairwise (fun x y => le x y = true) l →
      List.Pairwise (fun x y => le x y = true) (insertSorted le a l) := by
  intro l
  induction l with
  | nil => intro _; simp [insertSorted]
  | cons b t ih =>
      intro hp
      have hb : ∀ x ∈ t, le b x = true := (List.pairwise_cons.mp hp).1
      have ht : List.Pairwise (fun x y => le x y = true) t := (List.pairwise_cons.mp hp).2
      simp only [insertSorted]
      by_cases h : le a b = true
      · rw [if_pos h]
        refine List.pairwise_cons.mpr ⟨?_, hp⟩
        intro x hx
        rcases List.mem_cons.mp hx with hxb | hxt
        · rw [hxb]; exact h
        · exact htrans a b x h (hb x hxt)
      · rw [if_neg h]
        refine List.pairwise_cons.mpr ⟨?_, ih ht⟩
        intro x hx
        have hmem : x ∈ a :: t := (insertSorted_perm le a t).mem_iff.mp hx
        rcases List.mem_cons.mp hmem with hxa | hxt
        · rw [hxa]
          have := htot a b
          rcases Bool.or_eq_true_iff.mp this with h1 | h1
          · exact absurd h1 h
          · exact h1
        · exact hb x hxt

theorem pySortBy_perm {α : Type} (le : α → α → Bool) :
    ∀ l : List α, (pySortBy le l).Perm l := by
  intro l
  induction l with
  | nil => exact List.Perm.refl _
  | cons a t ih =>
      simp only [pySortBy, List.foldr_cons]
      exact (insertSorted_perm le a _).trans (ih.cons a)

theorem pySortBy_pairwise {α : Type} (le : α → α → Bool)
    (htrans : ∀ a b c, le a b = true → le b c = true → le a c = true)
    (htot : ∀ a b, le a b || le b a) :
    ∀ l : List α, List.Pairwise (fun x y => le x y = true) (pySortBy le l) := by
  intro l
  induction l with
  | nil => simp [pySortBy]
  | cons a t ih =>
      simp only [pySortBy, List.foldr_cons]
      exact insertSorted_pairwise le htrans htot a ih

theorem strLeB_trans : ∀ a b c : String,
    strLeB a b = true → strLeB b c = true → strLeB a c = true := by
  intro a b c hab hbc
  rw [strLeB_iff] at *
  exact le_trans hab hbc

theorem strLeB_total : ∀ a b : String, strLeB a b || strLeB b a := by
  intro a b
  rcases le_total a b with h | h
  · simp [(strLeB_iff a b).mpr h]
  · simp [(strLeB_iff b a).mpr h]

theorem pySortStr_sorted (l : List String) : List.Sorted (· ≤ ·) (pySortStr l) := by
  have := pySortBy_pairwise strLeB strLeB_trans strLeB_total l
  exact List.Pairwise.imp (fun h => (strLeB_iff _ _).mp h) this

theorem pySortStr_perm (l : List String) : (pySortStr l).Perm l :=
  pySortBy_perm strLeB l

theorem pySortStr_congr_perm {l₁ l₂ : List String} (h : l₁.Perm l₂) :
    pySortStr l₁ = pySortStr l₂ :=
  List.eq_of_perm_of_sorted ((pySortStr_perm l₁).trans (h.trans (pySortStr_perm l₂).symm))
    (pySortStr_sorted l₁) (pySortStr_sorted l₂)

theorem pySortStr_of_sorted {l : List String} (h : List.Sorted (· ≤ ·) l) :
    pySortStr l = l :=
  List.eq_of_perm_of_sorted (pySortStr_perm l) (pySortStr_sorted l) h

theorem pkgLeB_trans : ∀ a b c : PkgDict,
    pkgLeB a b = true → pkgLeB b c = true → pkgLeB a c = true := by
  intro a b c hab hbc
  exact strLeB_trans _ _ _ hab hbc

theorem pkgLeB_total : ∀ a b : PkgDict, pkgLeB a b || pkgLeB b a := by
  intro a b
  exact strLeB_total a.name b.name

theorem sortPkgs_perm (l : List PkgDict) : (pySortBy pkgLeB l).Perm l :=
  pySortBy_perm pkgLeB l

theorem sortPkgs_names_sorted (l : List PkgDict) :
    List.Pairwise (fun a b : PkgDict => a.name ≤ b.name) (pySortBy pkgLeB l) := by
  have := pySortBy_pairwise pkgLeB pkgLeB_trans pkgLeB_total l
  exact List.Pairwise.imp (fun h => (strLeB_iff _ _).mp h) this

/-- Two permuted lists that are both strictly sorted on a string key are
equal: the unique element carrying the smallest key must head both. -/
theorem perm_pairwise_key_eq {α : Type} (f : α → String) :
    ∀ (l₁ l₂ : List α), l₁.Perm l₂ →
      List.Pairwise (fun a b => f a < f b) l₁ →
      List.Pairwise (fun a b => f a < f b) l₂ → l₁ = l₂ := by
  intro l₁
  induction l₁ with
  | nil =>
      intro l₂ h _ _
      rw [h.symm.eq_nil]
  | cons a t ih =>
      intro l₂ h h₁ h₂
      cases l₂ with
      | nil => exact absurd h.eq_nil (by simp)
      | cons b t' =>
          have hab : a = b := by
            by_contra hne
            have hat' : a ∈ t' := by
              have := h.subset (List.mem_cons_self a t)
              rcases List.mem_cons.mp this with h' | h'
              · exact absurd h' hne
              · exact h'
            have hbt : b ∈ t := by
              have := h.symm.subset (List.mem_cons_self b t')
              rcases List.mem_cons.mp this with h' | h'
              · exact absurd h'.symm hne
              · exact h'
            have h1 : f a < f b := (List.pairwise_cons.mp h₁).1 b hbt
            have h2 : f b < f a := (List.pairwise_cons.mp h₂).1 a hat'
            exact absurd (h1.trans h2) (lt_irrefl _)
          subst hab
          have htt : t.Perm t' := h.cons_inv
          rw [ih t' htt (List.pairwise_cons.mp h₁).2 (List.pairwise_cons.mp h₂).2]

theorem names_nodup_of_pairwise_lt {α : Type} (f : α → String) {l : List α}
    (h : List.Pairwise (fun a b => f a < f b) l) : (l.map f).Nodup :=
  List.pairwise_map.mpr (h.imp fun hab => ne_of_lt hab)

theorem pairwise_lt_of_le_of_names_nodup {α : Type} (f : α → String) {l : List α}
    (hle : List.Pairwise (fun a b => f a ≤ f b) l) (hnd : (l.map f).Nodup) :
    List.Pairwise (fun a b => f a < f b) l := by
  have hne : List.Pairwise (fun a b => f a ≠ f b) l := List.pairwise_map.mp hnd
  exact (hle.and hne).imp fun h => lt_of_le_of_ne h.1 h.2

theorem sortPkgs_eq_of_perm_names_nodup {l₁ l₂ : List PkgDict} (hperm : l₁.Perm l₂)
    (hnd : (l₁.map PkgDict.name).Nodup) :
    pySortBy pkgLeB l₁ = pySortBy pkgLeB l₂ := by
  have hp₁ : (pySortBy pkgLeB l₁).Perm l₁ := sortPkgs_perm l₁
  have hp₂ : (pySortBy pkgLeB l₂).Perm l₂ := sortPkgs_perm l₂
  have hnd₁ : ((pySortBy pkgLeB l₁).map PkgDict.name).Nodup :=
    (hp₁.map PkgDict.name).nodup_iff.mpr hnd
  have hnd₂ : ((pySortBy pkgLeB l₂).map PkgDict.name).Nodup :=
    (hp₂.map PkgDict.name).nodup_iff.mpr ((hperm.map PkgDict.name).nodup_iff.mp hnd)
  exact perm_pairwise_key_eq PkgDict.name _ _
    (hp₁.trans (hperm.trans hp₂.symm))
    (pairwise_lt_of_le_of_names_nodup PkgDict.name (sortPkgs_names_sorted l₁) hnd₁)
    (pairwise_lt_of_le_of_names_nodup PkgDict.name (sortPkgs_names_sorted l₂) hnd₂)

theorem sortPkgs_self_of_names_sorted {l : List PkgDict}
    (h : List.Pairwise (fun a b : PkgDict => a.name < b.name) l) :
    pySortBy pkgLeB l = l := by
  have hperm : (pySortBy pkgLeB l).Perm l := sortPkgs_perm l
  have hnd : ((pySortBy pkgLeB l).map PkgDict.name).Nodup :=
    (hperm.map PkgDict.name).nodup_iff.mpr (names_nodup_of_pairwise_lt PkgDict.name h)
  exact perm_pairwise_key_eq PkgDict.name _ _ hperm
    (pairwise_lt_of_le_of_names_nodup PkgDict.name (sortPkgs_names_sorted l) hnd) h

theorem alookup_nil_eq_none {κ α : Type} [DecidableEq κ] (k : κ) :
    alookup (α := α) k [] = none := rfl

theorem alookup_eq_none_of_not_mem_keys {κ α : Type} [DecidableEq κ] {k : κ}
    {l : List (κ × α)} (h : k ∉ l.map Prod.fst) : alookup k l = none :=
  alookup_eq_none_of_forall_ne k l fun _kv hm heq =>
    h (heq ▸ List.mem_map_of_mem Prod.fst hm)

theorem alookup_filterMap_keys {β : Type} (f : String → Option β) :
    ∀ (ks : List String), ks.Nodup → ∀ (k : String),
      alookup k (ks.filterMap fun x => (f x).map fun v => (x, v))
        = if k ∈ ks then f k else none := by
  intro ks
  induction ks with
  | nil => intro _ k; simp [alookup]
  | cons k₀ ks' ih =>
      intro hnd k
      have hnd' : ks'.Nodup := (List.nodup_cons.mp hnd).2
      have hk₀ : k₀ ∉ ks' := (List.nodup_cons.mp hnd).1
      by_cases hk : k = k₀
      · subst hk
        cases hf : f k with
        | none =>
            simp only [List.filterMap_cons, hf, Option.map_none']
            rw [ih hnd' k]
            simp [hk₀]
        | some v =>
            simp [List.filterMap_cons, hf, alookup]
      · cases hf : f k₀ with
        | none =>
            simp only [List.filterMap_cons, hf, Option.map_none']
            rw [ih hnd' k]
            simp [hk]
        | some v =>
            simp only [List.filterMap_cons, hf, Option.map_some']
            have : (k₀, v).1 ≠ k := fun hc => hk (hc.symm)
            simp only [alookup, if_neg this]
            rw [ih hnd' k]
            simp [hk]

theorem filterMap_alookup_restore {β γ : Type} (h : String → β → Option γ) :
    ∀ (ks : List String) (l : List (String × β)), ks.Nodup →
      (l.map Prod.fst).Sublist ks →
      (ks.filterMap fun k => ((alookup k l).bind fun v => h k v).map fun w => (k, w))
        = l.filterMap fun kv => (h kv.1 kv.2).map fun w => (kv.1, w) := by
  intro ks
  induction ks with
  | nil =>
      intro l _ hsub
      have : l.map Prod.fst = [] := List.sublist_nil.mp hsub
      have hl : l = [] := List.map_eq_nil_iff.mp this
      subst hl
      rfl
  | cons k₀ ks' ih =>
      intro l hnd hsub
      have hnd' : ks'.Nodup := (List.nodup_cons.mp hnd).2
      have hk₀ : k₀ ∉ ks' := (List.nodup_cons.mp hnd).1
      cases l with
      | nil =>
          simp [alookup, List.filterMap_cons]
      | cons kv l' =>
          have hsub' : (kv.1 :: l'.map Prod.fst).Sublist (k₀ :: ks') := by
            simpa using hsub
          cases hsub' with
          | cons₂ _ htail =>
              have hlook : alookup kv.1 (kv :: l') = some kv.2 := by
                simp [alookup]
              have hcongr :
                  ks'.filterMap
                      (fun k => ((alookup k (kv :: l')).bind fun v => h k v).map fun w => (k, w))
                    = ks'.filterMap
                      (fun k => ((alookup k l').bind fun v => h k v).map fun w => (k, w)) := by
                apply List.filterMap_congr
                intro k hkmem
                have hne : kv.1 ≠ k := fun hc => hk₀ (hc ▸ hkmem)
                simp [alookup, if_neg hne]
              rw [List.filterMap_cons, List.filterMap_cons, hcongr, ih l' hnd' htail]
              simp only [hlook, Option.bind]
          | cons _ htail =>
              have hksub : (kv :: l').map Prod.fst ⊆ ks' := htail.subset
              have hlook : alookup k₀ (kv :: l') = none := by
                apply alookup_eq_none_of_not_mem_keys
                intro hmem
                exact hk₀ (hksub hmem)
              simp only [List.filterMap_cons, hlook, Option.bind, Option.map_none']
              exact ih (kv :: l') hnd' htail

theorem dropWhile_head_false (p : Char → Bool) :
    ∀ {l : List Char} {a : Char} {l' : List Char},
      l.dropWhile p = a :: l' → p a = false := by
  intro l
  induction l with
  | nil => intro a l' h; cases h
  | cons c cs ih =>
      intro a l' h
      by_cases hp : p c = true
      · rw [List.dropWhile_cons_of_pos hp] at h
        exact ih h
      · rw [List.dropWhile_cons_of_neg hp] at h
        cases h
        exact Bool.not_eq_true _ ▸ (by simpa using hp)

theorem wsTokensAux_append_newline (rest : List Char) :
    ∀ (l cur : List Char) (t : List Char) (ts : List (List Char)),
      wsTokensAux cur l = t :: ts →
      ∃ ts', wsTokensAux cur (l ++ '\n' :: rest) = t :: ts' := by
  intro l
  induction l with
  | nil =>
      intro cur t ts h
      simp only [wsTokensAux] at h
      by_cases hc : cur = []
      · rw [if_pos hc] at h
        cases h
      · rw [if_neg hc] at h
        have hts : t = cur.reverse := by
          cases h
          rfl
        refine ⟨wsTokensAux [] rest, ?_⟩
        have hnl : ('\n').isWhitespace = true := by decide
        simp only [List.nil_append, wsTokensAux, hnl, if_true, if_neg hc, hts]
  | cons c cs ih =>
      intro cur t ts h
      by_cases hw : c.isWhitespace = true
      · by_cases hc : cur = []
        · simp only [wsTokensAux, hw, if_true, hc, if_pos rfl] at h
          obtain ⟨ts', h'⟩ := ih [] t ts (by simpa [hc] using h)
          refine ⟨ts', ?_⟩
          simp only [List.cons_append, wsTokensAux, hw, if_true, hc, if_pos rfl]
          simpa [hc] using h'
        · simp only [wsTokensAux, hw, if_true, if_neg hc] at h
          refine ⟨wsTokensAux [] (cs ++ '\n' :: rest), ?_⟩
          simp only [List.cons_append, wsTokensAux, hw, if_true, if_neg hc]
          have hts : t = cur.reverse := by
            cases h
            rfl
          rw [hts]
          rfl
      · obtain ⟨ts', h'⟩ := ih (c :: cur) t ts (by simpa [wsTokensAux, hw] using h)
        refine ⟨ts', ?_⟩
        simp only [List.cons_append, wsTokensAux, hw, if_false]
        simpa using h'

theorem version_hash_lookup_first_line (out : List Char) (t : List Char)
    (ts : List (List Char)) (h : pySplitWs (firstLine out) = t :: ts) :
    version_hash_lookup (run_git_ls_remote out) = .ok t := by
  have hdec : out.takeWhile (fun c => c != '\n') ++ out.dropWhile (fun c => c != '\n') = out :=
    List.takeWhile_append_dropWhile _ _
  cases hd : out.dropWhile (fun c => c != '\n') with
  | nil =>
      have hout : out = firstLine out := by
        conv_lhs => rw [← hdec]
        rw [hd, List.append_nil]
        rfl
      have : pySplitWs out = t :: ts := by rw [hout]; exact h
      simp only [version_hash_lookup, run_git_ls_remote, this]
  | cons a tl =>
      have hpa : (a != '\n') = false := dropWhile_head_false (fun c => c != '\n') hd
      have ha : a = '\n' := by simpa using hpa
      subst ha
      have hout : firstLine out ++ '\n' :: tl = out := by
        conv_rhs => rw [← hdec, hd]
        rfl
      obtain ⟨ts', h'⟩ := wsTokensAux_append_newline tl (firstLine out) [] t ts h
      have : pySplitWs out = t :: ts' := by
        rw [← hout]
        exact h'
      simp only [version_hash_lookup, run_git_ls_remote, this]

theorem pySplitRefs_head_sep (t : List Char) :
    pySplitRefs ('r' :: 'e' :: 'f' :: 's' :: '/' :: t) = [] :: pySplitRefs t := rfl

theorem pySplitRefs_cons_no_sep (c : Char) (cs : List Char)
    (h : refsSep.isPrefixOf (c :: cs) = false) :
    pySplitRefs (c :: cs)
      = match pySplitRefs cs with
        | [] => [[c]]
        | p :: ps => (c :: p) :: ps := by
  conv_lhs => rw [pySplitRefs.eq_def]
  split
  · rename_i t heq
    exfalso
    injection heq with h1 h2
    subst h1
    subst h2
    simp [refsSep, List.isPrefixOf] at h
  · rename_i heqScrut
    injection heqScrut with h1 h2
    subst h1
    subst h2
    rfl
  · rename_i heqScrut
    simp at heqScrut

theorem pySplitRefs_no_sep : ∀ (l : List Char), containsRefsSep l = false →
    pySplitRefs l = [l] := by
  intro l
  induction l with
  | nil => intro _; rfl
  | cons c cs ih =>
      intro h
      simp only [containsRefsSep, Bool.or_eq_false_iff] at h
      rw [pySplitRefs_cons_no_sep c cs h.1, ih h.2]

theorem strip_ref_of_decomp (ref : String) (tail : List Char)
    (href : ref.toList = refsSep ++ tail) (h : containsRefsSep tail = false) :
    strip_ref ref = String.mk tail := by
  unfold strip_ref
  have hpre : refsSep.isPrefixOf ref.toList = true := by
    rw [href]
    exact List.isPrefixOf_iff_prefix.mpr (List.prefix_append _ _)
  rw [if_pos hpre, href]
  have hform : refsSep ++ tail = 'r' :: 'e' :: 'f' :: 's' :: '/' :: tail := rfl
  rw [hform, pySplitRefs_head_sep, pySplitRefs_no_sep tail h]
  rfl

theorem contains_eq_true_of_mem {l : List String} {a : String} (h : a ∈ l) :
    l.contains a = true := by
  simpa using h

theorem mem_of_contains_eq_true {l : List String} {a : String} (h : l.contains a = true) :
    a ∈ l := by
  simpa using h

theorem filter_contains_id {α : Type} {m : List (String × α)} {incl : List String}
    (h : ∀ kv ∈ m, kv.1 ∈ incl) :
    (m.filter fun kv => incl.contains kv.1) = m := by
  apply List.filter_eq_self.mpr
  intro kv hm
  exact contains_eq_true_of_mem (h kv hm)

theorem filterMap_id_of_some {α : Type} {f : α → Option α} :
    ∀ {l : List α}, (∀ a ∈ l, f a = some a) → l.filterMap f = l := by
  intro l
  induction l with
  | nil => intro _; rfl
  | cons a t ih =>
      intro h
      rw [List.filterMap_cons, h a (List.mem_cons_self a t),
        ih fun x hx => h x (List.mem_cons_of_mem a hx)]

/-- The `match` in `descriptor_to_dict`'s depends construction, reshaped into
the bind/map normal form the association lemmas use. -/
theorem depends_entry_shape (d : List (String × List String)) (x : String) :
    (match alookup x d with
      | none => none
      | some deps => if deps = [] then none else some (x, pySortStr deps))
      = ((alookup x d).bind fun deps =>
          if deps = [] then none else some (pySortStr deps)).map fun w => (x, w) := by
  cases alookup x d with
  | none => rfl
  | some deps =>
      by_cases hd : deps = [] <;> simp [hd]

theorem isPrefixOf_refsSep_false_of_no_sep (tail : List Char)
    (h : containsRefsSep tail = false) : refsSep.isPrefixOf tail = false := by
  cases tail with
  | nil => rfl
  | cons c cs =>
      simp only [containsRefsSep, Bool.or_eq_false_iff] at h
      exact h.1

theorem strip_ref_id_of_no_sep (tail : List Char) (h : containsRefsSep tail = false) :
    strip_ref (String.mk tail) = String.mk tail := by
  unfold strip_ref
  have hp : refsSep.isPrefixOf (String.mk tail).toList = false :=
    isPrefixOf_refsSep_false_of_no_sep tail h
  rw [if_neg]
  intro hpre
  rw [hp] at hpre
  exact Bool.false_ne_true hpre

theorem flight_iterate : ∀ n : Nat, 1 ≤ n →
    flightEnter^[n] flightInit
      = { entry := some 0, launches := 1, waiters := List.replicate n 0 } := by
  intro n
  induction n with
  | zero => intro h; exact absurd h (by decide)
  | succ k ih =>
      intro _
      by_cases hk : 1 ≤ k
      · rw [Function.iterate_succ_apply', ih hk]
        simp [flightEnter, List.replicate_succ']
      · have hk0 : k = 0 := by omega
        subst hk0
        simp [flightEnter, flightInit, List.replicate]

/-! ## Claim theorems -/

/-- C5 (code_bug): the claim says the size of every downloaded LFS object is
verified against the pointer's declared size, a mismatch raising
DownloadError. The code's check `if not lfs_file.tell() != lfs_size:` never
raises: `lfs_size` is the string captured by the pointer regex while
`tell()` is an int, so the `!=` is always True and its negation always
False. `download_all_lfs` completes with status `.ok` even for an object
whose declared size is "10" but whose downloaded body is 5 bytes, and the
per-object size check accepts every (written, declared) pair. -/
theorem c5_lfs_size_check_theorem :
    download_all_lfs [(200, 5, "10")] = .ok ()
      ∧ ∀ (written : Nat) (declared : String), lfs_size_check written declared = .ok () :=
  ⟨rfl, fun _ _ => rfl⟩

/-- C9 (code_bug): an URL the regex cannot parse does raise DownloadError
from `GitRev.__init__`, but a parseable URL whose host matches no backend —
e.g. `https://bitbucket.org/owner/repo` — reaches the
`raise DownloadError(f"... {url}")` line in `_get_downloader`, whose
f-string references the undefined name `url`, so a `NameError` is raised
instead of the claimed DownloadError. -/
theorem c9_unmatched_url_theorem :
    git_rev_init "https://bitbucket.org/owner/repo" = .exc (.nameError "url")
    ∧ git_rev_init "file:///tmp/repo"
        = .exc (.downloadError "Unable to parse version control URL")
    ∧ ∀ url : String, url_regex_match url = none →
        git_rev_init url = .exc (.downloadError "Unable to parse version control URL") := by
  refine ⟨by decide, by decide, ?_⟩
  intro url h
  simp [git_rev_init, h]

/-- Witness for C9 at a concrete unparseable URL. -/
theorem c9_unmatched_url_witness :
    url_regex_match "::" = none
    ∧ git_rev_init "::" = .exc (.downloadError "Unable to parse version control URL") :=
  ⟨by decide, c9_unmatched_url_theorem.2.2 "::" (by decide)⟩

/-- C10 (confirmed): `Database.insert_repo_state` serializes the metadata
column from the descriptor's metadata dict before adding `repo_state_id`,
so (provided the key was not already present, which the lifecycle
guarantees) the stored metadata column has no `repo_state_id` key; the only
mutation of the descriptor is appending that key to its metadata dict —
name, type, url, version, path and packages are untouched. -/
theorem c10_insert_frame_theorem (rd : RepoDesc) (rowid : Nat)
    (h : alookup "repo_state_id" rd.metadata = none) :
    (insert_repo_state rd rowid).1.metadata = rd.metadata
    ∧ alookup "repo_state_id" (insert_repo_state rd rowid).1.metadata = none
    ∧ (insert_repo_state rd rowid).2.name = rd.name
    ∧ (insert_repo_state rd rowid).2.type = rd.type
    ∧ (insert_repo_state rd rowid).2.url = rd.url
    ∧ (insert_repo_state rd rowid).2.version = rd.version
    ∧ (insert_repo_state rd rowid).2.path = rd.path
    ∧ (insert_repo_state rd rowid).2.packages = rd.packages
    ∧ (insert_repo_state rd rowid).2.metadata
        = rd.metadata ++ [("repo_state_id", MetaVal.i rowid)] :=
  ⟨rfl, h, rfl, rfl, rfl, rfl, rfl, rfl, dictSet_eq_append rd.metadata (MetaVal.i rowid) h⟩

/-- Witness for C10 at a concrete descriptor carrying one metadata key. -/
theorem c10_insert_frame_witness :
    alookup "repo_state_id" ([("hash", MetaVal.s "abc")] : List (String × MetaVal)) = none
    ∧ (insert_repo_state
        { name := some "roscpp", type := some "git",
          url := some "https://github.com/ros/roscpp", version := some "abc123",
          path := none, packages := some [], metadata := [("hash", MetaVal.s "abc")] } 7).2.metadata
      = [("hash", MetaVal.s "abc")] ++ [("repo_state_id", MetaVal.i 7)] :=
  ⟨by decide,
    (c10_insert_frame_theorem
      { name := some "roscpp", type := some "git",
        url := some "https://github.com/ros/roscpp", version := some "abc123",
        path := none, packages := some [], metadata := [("hash", MetaVal.s "abc")] }
      7 (by decide)).2.2.2.2.2.2.2.2⟩

/-- C8 counterexample: with a supplied but EMPTY allowlist, the serialized
package still carries a `metadata` key (as an empty dict) — the code tests
`metadata_inclusions is not None`, not non-emptiness, so the claim's
"only when a non-empty allowlist is supplied" is false. -/
theorem c8_metadata_allowlist_counterexample :
    (descriptor_to_dict
        { name := "roscpp", path := ".", type := "ros.catkin", dependencies := [],
          metadata := [("maintainer", MetaVal.s "x")] }
        (some [])).metadata = some []
    ∧ (descriptor_to_dict
        { name := "roscpp", path := ".", type := "ros.catkin", dependencies := [],
          metadata := [("maintainer", MetaVal.s "x")] }
        (some [])).metadata ≠ none := by
  exact ⟨by decide, by decide⟩

/-- C8 amended (corrected): `descriptor_to_dict` and
`RepositoryDescriptor.to_dict` include a `metadata` key exactly when an
allowlist is supplied (is not None) — even an empty one — and every
metadata entry whose key is not in the allowlist is absent from the
output. -/
theorem c8_metadata_allowlist_amended :
    (∀ pd : PkgDesc, (descriptor_to_dict pd none).metadata = none)
    ∧ (∀ (pd : PkgDesc) (incl : List String),
        (descriptor_to_dict pd (some incl)).metadata
          = some (pd.metadata.filter fun kv => incl.contains kv.1))
    ∧ (∀ (pd : PkgDesc) (incl : List String) (k : String) (v : MetaVal)
        (m : List (String × MetaVal)),
        (descriptor_to_dict pd (some incl)).metadata = some m → (k, v) ∈ m → k ∈ incl)
    ∧ (∀ (rd : RepoDesc) (d : RepoDict),
        RepositoryDescriptor.to_dict rd none = some d → d.metadata = none)
    ∧ (∀ (rd : RepoDesc) (incl : List String) (d : RepoDict),
        RepositoryDescriptor.to_dict rd (some incl) = some d →
        d.metadata = some (rd.metadata.filter fun kv => incl.contains kv.1)
        ∧ ∀ (k : String) (v : MetaVal) (m : List (String × MetaVal)),
            d.metadata = some m → (k, v) ∈ m → k ∈ incl) := by
  refine ⟨fun _ => rfl, fun _ _ => rfl, ?_, ?_, ?_⟩
  · intro pd incl k v m hm hmem
    have : m = pd.metadata.filter fun kv => incl.contains kv.1 := by
      have h0 : (descriptor_to_dict pd (some incl)).metadata
          = some (pd.metadata.filter fun kv => incl.contains kv.1) := rfl
      rw [h0] at hm
      exact (Option.some_inj.mp hm).symm
    subst this
    exact mem_of_contains_eq_true (List.mem_filter.mp hmem).2
  · intro rd d h
    cases hp : rd.packages with
    | none =>
        simp [RepositoryDescriptor.to_dict, RepositoryDescriptor.packages_dicts, hp] at h
    | some pkgs =>
        simp only [RepositoryDescriptor.to_dict, RepositoryDescriptor.packages_dicts, hp,
          Option.map_some'] at h
        cases h
        rfl
  · intro rd incl d h
    cases hp : rd.packages with
    | none =>
        simp [RepositoryDescriptor.to_dict, RepositoryDescriptor.packages_dicts, hp] at h
    | some pkgs =>
        simp only [RepositoryDescriptor.to_dict, RepositoryDescriptor.packages_dicts, hp,
          Option.map_some'] at h
        cases h
        refine ⟨rfl, ?_⟩
        intro k v m hm hmem
        have : m = rd.metadata.filter fun kv => incl.contains kv.1 :=
          (Option.some_inj.mp hm).symm
        subst this
        exact mem_of_contains_eq_true (List.mem_filter.mp hmem).2

/-- Witness for C8 amended at a concrete repository descriptor. -/
theorem c8_metadata_allowlist_witness :
    RepoDict.metadata
      { type := some "git", url := some "https://u", version := some "v",
        packages := [], metadata := none } = none :=
  c8_metadata_allowlist_amended.2.2.2.1
    { name := some "r", type := some "git", url := some "https://u", version := some "v",
      path := none, packages := some [], metadata := [("a", MetaVal.i 1)] }
    { type := some "git", url := some "https://u", version := some "v",
      packages := [], metadata := none }
    (by decide)

/-- C6 counterexample: on empty `git ls-remote` output the code raises
`IndexError` (from `git_output.split()[0]`), not the claimed
DownloadError("ref not found"); and stderr is never captured (the
subprocess is spawned without `stderr=PIPE`), so stderr output cannot raise
anything. -/
theorem c6_resolve_version_counterexample :
    version_hash_lookup (run_git_ls_remote []) = .exc .indexError
    ∧ (run_git_ls_remote ['w', 'a', 'r', 'n']).stderr = none :=
  ⟨rfl, rfl⟩

/-- C6 amended (corrected): `version_hash_lookup` returns the first
whitespace-delimited token of the whole output, which equals the first
token of the first line whenever the first line contains one; empty (or
all-whitespace) output raises IndexError, not DownloadError; and stderr is
not captured at all, so stderr output never triggers an error. -/
theorem c6_resolve_version_amended :
    (∀ (out t : List Char) (ts : List (List Char)),
        pySplitWs (firstLine out) = t :: ts →
        version_hash_lookup (run_git_ls_remote out) = .ok t)
    ∧ (∀ out : List Char, pySplitWs out = [] →
        version_hash_lookup (run_git_ls_remote out) = .exc .indexError)
    ∧ (∀ out : List Char, (run_git_ls_remote out).stderr = none) := by
  refine ⟨fun out t ts h => version_hash_lookup_first_line out t ts h, ?_, fun _ => rfl⟩
  intro out h
  simp [version_hash_lookup, run_git_ls_remote, h]

/-- Witness for C6 on a two-line `git ls-remote` output. -/
theorem c6_resolve_version_witness :
    version_hash_lookup (run_git_ls_remote ("deadbeef\trefs/tags/v1\nother x\n".toList))
      = .ok ("deadbeef".toList) :=
  c6_resolve_version_amended.1 ("deadbeef\trefs/tags/v1\nother x\n".toList)
    ("deadbeef".toList) ["refs/tags/v1".toList] (by decide)

/-- C7 counterexample: the single-flight key of `get_set` is built from the
ORIGINAL ref (the decorator computes it before the body strips the prefix),
so `GetSet("banana", "refs/tags/X")` and `GetSet("banana", "tags/X")` use
different single-flight keys; moreover the stripping is
`ref.split("refs/")[1]`, which for a ref containing a second "refs/"
occurrence yields the piece between the first two occurrences, not the ref
with only the leading prefix removed. -/
theorem c7_ref_strip_counterexample :
    get_set_flight_key "banana" "refs/tags/X" ≠ get_set_flight_key "banana" "tags/X"
    ∧ strip_ref "refs/tags/refs/v1" = "tags/"
    ∧ strip_ref "refs/tags/refs/v1" ≠ "tags/refs/v1" := by
  exact ⟨by decide, by decide, by decide⟩

/-- C7 amended (corrected): for a ref of the form "refs/" ++ tail where
"refs/" does not occur in tail, the stripped ref is exactly tail, so both
spellings share the database set-row key: after a first call caches the
set under the "refs/"-spelling, a call with the stripped spelling hits the
same stored row and inserts nothing. Their single-flight keys, however,
differ (they are keyed by the unstripped ref). -/
theorem c7_ref_strip_amended (dist ref : String) (tail : List Char)
    (href : ref.toList = refsSep ++ tail)
    (hnosep : containsRefsSep tail = false)
    (fresh fresh2 : Nat) :
    strip_ref ref = String.mk tail
    ∧ get_set_db_key dist ref = get_set_db_key dist (String.mk tail)
    ∧ get_set_flight_key dist ref ≠ get_set_flight_key dist (String.mk tail)
    ∧ (run_get_set (run_get_set [] dist ref fresh).2 dist (String.mk tail) fresh2).1 = fresh
    ∧ (run_get_set (run_get_set [] dist ref fresh).2 dist (String.mk tail) fresh2).2
        = (run_get_set [] dist ref fresh).2 := by
  have hstrip : strip_ref ref = String.mk tail := strip_ref_of_decomp ref tail href hnosep
  have hid : strip_ref (String.mk tail) = String.mk tail := strip_ref_id_of_no_sep tail hnosep
  have hkey : get_set_db_key dist (String.mk tail) = get_set_db_key dist ref := by
    simp [get_set_db_key, hstrip, hid]
  have hne : ref ≠ String.mk tail := by
    intro hEq
    have hlist := congrArg String.toList hEq
    rw [href] at hlist
    have hlen := congrArg List.length hlist
    simp [refsSep] at hlen
    omega
  refine ⟨hstrip, hkey.symm, ?_, ?_, ?_⟩
  · intro hEq
    simp only [get_set_flight_key, Prod.mk.injEq] at hEq
    exact hne hEq.2.2
  · simp [run_get_set, hkey, alookup]
  · simp [run_get_set, hkey, alookup]

/-- Witness for C7 at `("banana", "refs/tags/X")`. -/
theorem c7_ref_strip_witness :
    strip_ref "refs/tags/X" = String.mk "tags/X".toList :=
  (c7_ref_strip_amended "banana" "refs/tags/X" "tags/X".toList
    (by decide) (by decide) 1 2).1

/-- C2 counterexample: on the cache-miss path with a successful download but
zero discovered packages, `get_repo_state` raises
`ModelError("No packages discovered ...")` — it does not persist an
empty-package row and return; and a DownloadError from the scoped download
propagates uncaught with nothing inserted. -/
theorem c2_error_capture_counterexample :
    (get_repo_state []
        { name := some "roscpp", type := some "git",
          url := some "https://github.com/ros/roscpp", version := some "abc123",
          path := none, packages := none, metadata := [] }
        (.ok []) 1).result = .exc (.modelError "No packages discovered")
    ∧ (get_repo_state []
        { name := some "roscpp", type := some "git",
          url := some "https://github.com/ros/roscpp", version := some "abc123",
          path := none, packages := none, metadata := [] }
        (.ok []) 1).inserts = 0
    ∧ (get_repo_state []
        { name := some "roscpp", type := some "git",
          url := some "https://github.com/ros/roscpp", version := some "abc123",
          path := none, packages := none, metadata := [] }
        (.ok []) 1).db = []
    ∧ (get_repo_state []
        { name := some "roscpp", type := some "git",
          url := some "https://github.com/ros/roscpp", version := some "abc123",
          path := none, packages := none, metadata := [] }
        (.exc (.downloadError "HTTP 404")) 1).result = .exc (.downloadError "HTTP 404")
    ∧ (get_repo_state []
        { name := some "roscpp", type := some "git",
          url := some "https://github.com/ros/roscpp", version := some "abc123",
          path := none, packages := none, metadata := [] }
        (.exc (.downloadError "HTTP 404")) 1).inserts = 0 := by
  exact ⟨by decide, by decide, by decide, by decide, by decide⟩

/-- C2 amended (corrected): on the cache-miss path of `get_repo_state`, a
DownloadError raised by the scoped download propagates out uncaught, and a
discovery yielding zero package descriptors raises ModelError; in both
cases `insert_repo_state` is never called and the database is unchanged, so
the enclosing `get_set` fails rather than completing with an empty-package
row. -/
theorem c2_error_capture_amended (db : List RepoStateRow) (rd : RepoDesc)
    (hmiss : fetch_repo_state db rd = none) (e : PyExc) (nextId : Nat) :
    (get_repo_state db rd (.exc e) nextId).result = .exc e
    ∧ (get_repo_state db rd (.exc e) nextId).inserts = 0
    ∧ (get_repo_state db rd (.exc e) nextId).db = db
    ∧ (get_repo_state db rd (.ok []) nextId).result
        = .exc (.modelError "No packages discovered")
    ∧ (get_repo_state db rd (.ok []) nextId).inserts = 0
    ∧ (get_repo_state db rd (.ok []) nextId).db = db := by
  refine ⟨?_, ?_, ?_, ?_, ?_, ?_⟩ <;> simp [get_repo_state, hmiss]

/-- Witness for C2 amended against the empty store. -/
theorem c2_error_capture_witness :
    fetch_repo_state []
      { name := some "roscpp", type := some "git",
        url := some "https://github.com/ros/roscpp", version := some "abc123",
        path := none, packages := none, metadata := [] } = none
    ∧ (get_repo_state []
        { name := some "roscpp", type := some "git",
          url := some "https://github.com/ros/roscpp", version := some "abc123",
          path := none, packages := none, metadata := [] }
        (.exc (.downloadError "curl failed")) 1).result
      = .exc (.downloadError "curl failed") :=
  ⟨by decide,
    (c2_error_capture_amended []
      { name := some "roscpp", type := some "git",
        url := some "https://github.com/ros/roscpp", version := some "abc123",
        path := none, packages := none, metadata := [] }
      (by decide) (.downloadError "curl failed") 1).1⟩

/-- C1 counterexample: the claim asserts unconditionally that
`Database.insert_repo_state` is called exactly once, while explicitly
covering the case where every concurrent caller receives the same failure.
On this code the failure branch inserts nothing: with a store not containing
the identity, two concurrent callers whose single launched run raises a
DownloadError perform one launch but zero inserts — not exactly one. -/
theorem c1_single_flight_counterexample :
    (flightEnter^[2] flightInit).launches = 1
    ∧ (get_repo_state []
        { name := some "roscpp", type := some "git",
          url := some "https://github.com/ros/roscpp", version := some "abc123",
          path := none, packages := none, metadata := [] }
        (.exc (.downloadError "curl: connection refused")) 1).result
      = .exc (.downloadError "curl: connection refused")
    ∧ (flightEnter^[2] flightInit).launches
        * (get_repo_state []
            { name := some "roscpp", type := some "git",
              url := some "https://github.com/ros/roscpp", version := some "abc123",
              path := none, packages := none, metadata := [] }
            (.exc (.downloadError "curl: connection refused")) 1).inserts
      = 0
    ∧ (flightEnter^[2] flightInit).launches
        * (get_repo_state []
            { name := some "roscpp", type := some "git",
              url := some "https://github.com/ros/roscpp", version := some "abc123",
              path := none, packages := none, metadata := [] }
            (.exc (.downloadError "curl: connection refused")) 1).inserts
      ≠ 1 :=
  ⟨by decide, by decide, by decide, by decide⟩

/-- C1 amended (corrected, under the cooperative asyncio model): for any
store that does not yet contain the identity, N ≥ 1 concurrent callers
entering the single-flight before the work completes launch the underlying
`get_repo_state` body exactly once (all of them await future 0, the single
launched one), so the scoped download/discovery work runs exactly once in
total; `insert_repo_state` is called at most once in total — exactly once
when the single run returns a value, zero times when it raises (this code
does not persist on failure); since all callers await the same future they
all observe that run's single result or its single failure; and the
`in_progress` entry is gone once the work completes, whether it succeeded
or failed. -/
theorem c1_single_flight_amended (n : Nat) (hn : 1 ≤ n) (db : List RepoStateRow)
    (rd : RepoDesc) (download : PyResult (List PkgDesc)) (nextId : Nat)
    (hmiss : fetch_repo_state db rd = none) :
    (flightEnter^[n] flightInit).launches = 1
    ∧ (flightEnter^[n] flightInit).waiters = List.replicate n 0
    ∧ (flightComplete (flightEnter^[n] flightInit)).entry = none
    ∧ (flightEnter^[n] flightInit).launches
        * (get_repo_state db rd download nextId).downloads = 1
    ∧ (flightEnter^[n] flightInit).launches
        * (get_repo_state db rd download nextId).inserts ≤ 1
    ∧ (∀ d : RepoDesc, (get_repo_state db rd download nextId).result = .ok d →
        (get_repo_state db rd download nextId).inserts = 1)
    ∧ (∀ e : PyExc, (get_repo_state db rd download nextId).result = .exc e →
        (get_repo_state db rd download nextId).inserts = 0) := by
  have hflight := flight_iterate n hn
  refine ⟨by rw [hflight], by rw [hflight], by rw [hflight]; rfl, ?_, ?_, ?_, ?_⟩
  · rw [hflight]
    cases download with
    | exc e => simp [get_repo_state, hmiss]
    | ok pkgs =>
        by_cases hp : pkgs = [] <;> simp [get_repo_state, hmiss, hp]
  · rw [hflight]
    cases download with
    | exc e => simp [get_repo_state, hmiss]
    | ok pkgs =>
        by_cases hp : pkgs = [] <;> simp [get_repo_state, hmiss, hp]
  · intro d hres
    cases download with
    | exc e => simp [get_repo_state, hmiss] at hres
    | ok pkgs =>
        by_cases hp : pkgs = []
        · simp [get_repo_state, hmiss, hp] at hres
        · simp [get_repo_state, hmiss, hp]
  · intro e hres
    cases download with
    | exc e' => simp [get_repo_state, hmiss]
    | ok pkgs =>
        by_cases hp : pkgs = []
        · simp [get_repo_state, hmiss, hp]
        · simp [get_repo_state, hmiss, hp] at hres

/-- Witness for C1 amended with three concurrent callers, a non-empty
store missing the identity, and a one-package discovery. -/
theorem c1_single_flight_witness :
    (flightEnter^[3] flightInit).launches = 1
    ∧ (flightEnter^[3] flightInit).waiters = List.replicate 3 0 :=
  ⟨(c1_single_flight_amended 3 (by decide)
      [{ id := 4, name := some "other", type := some "git",
         url := some "https://github.com/ros/other", version := some "fff000",
         metadata := [], packages := some [] }]
      { name := some "roscpp", type := some "git",
        url := some "https://github.com/ros/roscpp", version := some "abc123",
        path := none, packages := none, metadata := [] }
      (.ok [{ name := "roscpp", path := ".", type := "ros.catkin",
              dependencies := [], metadata := [] }]) 1 (by decide)).1,
    (c1_single_flight_amended 3 (by decide)
      [{ id := 4, name := some "other", type := some "git",
         url := some "https://github.com/ros/other", version := some "fff000",
         metadata := [], packages := some [] }]
      { name := some "roscpp", type := some "git",
        url := some "https://github.com/ros/roscpp", version := some "abc123",
        path := none, packages := none, metadata := [] }
      (.ok [{ name := "roscpp", path := ".", type := "ros.catkin",
              dependencies := [], metadata := [] }]) 1 (by decide)).2.1⟩

theorem pkgdict_ext {a b : PkgDict} (h1 : a.name = b.name) (h2 : a.path = b.path)
    (h3 : a.type = b.type) (h4 : a.depends = b.depends) (h5 : a.metadata = b.metadata) :
    a = b := by
  cases a
  cases b
  simp_all

theorem repodict_ext {a b : RepoDict} (h1 : a.type = b.type) (h2 : a.url = b.url)
    (h3 : a.version = b.version) (h4 : a.packages = b.packages)
    (h5 : a.metadata = b.metadata) : a = b := by
  cases a
  cases b
  simp_all

/-- C3 (confirmed): every `depends[k]` list emitted by `descriptor_to_dict`
is sorted ascending; the package-dict list emitted by `packages_dicts` is
sorted ascending by the `name` key; consequently serialization is
insensitive to the iteration order of the underlying sets: two package
descriptors with equal logical content (same name, path, type and metadata,
dependency sets equal as sets) serialize to the same dict — hence to
byte-identical JSON — and two permutations of a repository's package set
with distinct package names serialize to the same sorted list. -/
theorem c3_canonical_sorting_theorem :
    (∀ (pd : PkgDesc) (incl : Option (List String)) (k : String) (l : List String),
        (k, l) ∈ (descriptor_to_dict pd incl).depends → List.Sorted (· ≤ ·) l)
    ∧ (∀ (pkgs : List PkgDesc) (incl : Option (List String)),
        List.Sorted (· ≤ ·)
          ((RepositoryDescriptor.packages_dicts_list pkgs incl).map PkgDict.name))
    ∧ (∀ (pd₁ pd₂ : PkgDesc) (incl : Option (List String)),
        pd₁.name = pd₂.name → pd₁.path = pd₂.path → pd₁.type = pd₂.type →
        pd₁.metadata = pd₂.metadata →
        depsSetEquiv pd₁.dependencies pd₂.dependencies →
        (∀ kv ∈ pd₁.dependencies, kv.2.Nodup) →
        (∀ kv ∈ pd₂.dependencies, kv.2.Nodup) →
        descriptor_to_dict pd₁ incl = descriptor_to_dict pd₂ incl)
    ∧ (∀ (pkgs₁ pkgs₂ : List PkgDesc) (incl : Option (List String)),
        pkgs₁.Perm pkgs₂ → (pkgs₁.map PkgDesc.name).Nodup →
        RepositoryDescriptor.packages_dicts_list pkgs₁ incl
          = RepositoryDescriptor.packages_dicts_list pkgs₂ incl) := by
  refine ⟨?_, ?_, ?_, ?_⟩
  · intro pd incl k l hmem
    simp only [descriptor_to_dict] at hmem
    obtain ⟨x, hx, hfx⟩ := List.mem_filterMap.mp hmem
    cases ha : alookup x pd.dependencies with
    | none => rw [ha] at hfx; cases hfx
    | some deps =>
        rw [ha] at hfx
        dsimp only at hfx
        by_cases hd : deps = []
        · rw [if_pos hd] at hfx; cases hfx
        · rw [if_neg hd] at hfx
          have hkveq : (x, pySortStr deps) = (k, l) := Option.some_inj.mp hfx
          have hl : l = pySortStr deps := by
            have := congrArg Prod.snd hkveq
            exact this.symm
          rw [hl]
          exact pySortStr_sorted deps
  · intro pkgs incl
    exact List.pairwise_map.mpr (sortPkgs_names_sorted _)
  · intro pd₁ pd₂ incl hn hp ht hm hdeps hnd₁ hnd₂
    apply pkgdict_ext hn hp ht
    · show (descriptor_to_dict pd₁ incl).depends = (descriptor_to_dict pd₂ incl).depends
      simp only [descriptor_to_dict]
      apply List.filterMap_congr
      intro x _
      have hfin := hdeps x
      cases h₁ : alookup x pd₁.dependencies with
      | none =>
          cases h₂ : alookup x pd₂.dependencies with
          | none => rfl
          | some l₂ => rw [h₁, h₂] at hfin; cases hfin
      | some l₁ =>
          cases h₂ : alookup x pd₂.dependencies with
          | none => rw [h₁, h₂] at hfin; cases hfin
          | some l₂ =>
              rw [h₁, h₂] at hfin
              have hfineq : l₁.toFinset = l₂.toFinset := by
                simpa using hfin
              have hperm : l₁.Perm l₂ :=
                List.perm_of_nodup_nodup_toFinset_eq
                  (hnd₁ _ (mem_of_alookup_eq_some h₁))
                  (hnd₂ _ (mem_of_alookup_eq_some h₂)) hfineq
              by_cases he : l₁ = []
              · have he₂ : l₂ = [] := by
                  rw [he] at hperm
                  exact hperm.symm.eq_nil
                simp [he, he₂]
              · have he₂ : l₂ ≠ [] := by
                  intro hc
                  rw [hc] at hperm
                  exact he hperm.eq_nil
                dsimp only
                rw [if_neg he, if_neg he₂, pySortStr_congr_perm hperm]
    · show (descriptor_to_dict pd₁ incl).metadata = (descriptor_to_dict pd₂ incl).metadata
      simp only [descriptor_to_dict]
      rw [hm]
  · intro pkgs₁ pkgs₂ incl hperm hnd
    unfold RepositoryDescriptor.packages_dicts_list
    apply sortPkgs_eq_of_perm_names_nodup (hperm.map _)
    have hmap : ((pkgs₁.map (descriptor_to_dict · incl)).map PkgDict.name)
        = pkgs₁.map PkgDesc.name := by
      rw [List.map_map]
      rfl
    rw [hmap]
    exact hnd

/-- Witness for C3: two descriptors whose build-dependency sets are listed
in different iteration orders serialize identically. -/
theorem c3_canonical_sorting_witness :
    descriptor_to_dict
      { name := "A", path := ".", type := "t",
        dependencies := [("build", ["z", "a"])], metadata := [] } none
    = descriptor_to_dict
      { name := "A", path := ".", type := "t",
        dependencies := [("build", ["a", "z"])], metadata := [] } none :=
  c3_canonical_sorting_theorem.2.2.1
    { name := "A", path := ".", type := "t",
      dependencies := [("build", ["z", "a"])], metadata := [] }
    { name := "A", path := ".", type := "t",
      dependencies := [("build", ["a", "z"])], metadata := [] }
    none rfl rfl rfl rfl
    (by
      intro k
      by_cases h : ("build" : String) = k
      · simp only [alookup, if_pos h, Option.map_some']
        congr 1
        decide
      · simp only [alookup, if_neg h])
    (by decide) (by decide)

/-- C4 direction 1 (package level): deserializing a serialized descriptor
restores every field, provided the descriptor is serializable without loss:
dependency kinds among `build, run, test` with duplicate-free non-empty
sets, and a metadata allowlist covering every metadata key. Dependencies
are compared as Python compares them — dicts of sets. -/
theorem roundtrip_pkg_d1 (pd : PkgDesc) (incl : List String)
    (hk : ∀ kv ∈ pd.dependencies, kv.1 ∈ canonicalDepKinds)
    (hv : ∀ kv ∈ pd.dependencies, kv.2 ≠ [] ∧ kv.2.Nodup)
    (hmeta : ∀ kv ∈ pd.metadata, kv.1 ∈ incl) :
    (descriptor_from_dict (descriptor_to_dict pd (some incl))).name = pd.name
    ∧ (descriptor_from_dict (descriptor_to_dict pd (some incl))).path = pd.path
    ∧ (descriptor_from_dict (descriptor_to_dict pd (some incl))).type = pd.type
    ∧ (descriptor_from_dict (descriptor_to_dict pd (some incl))).metadata = pd.metadata
    ∧ depsSetEquiv (descriptor_from_dict (descriptor_to_dict pd (some incl))).dependencies
        pd.dependencies := by
  have hchar : ∀ kv ∈ (descriptor_to_dict pd (some incl)).depends,
      pySet kv.2 = kv.2 ∧ kv.2 ≠ [] := by
    intro kv hkv
    simp only [descriptor_to_dict] at hkv
    obtain ⟨x, hx, hfx⟩ := List.mem_filterMap.mp hkv
    cases ha : alookup x pd.dependencies with
    | none => rw [ha] at hfx; cases hfx
    | some deps =>
        rw [ha] at hfx
        dsimp only at hfx
        by_cases hd : deps = []
        · rw [if_pos hd] at hfx; cases hfx
        · rw [if_neg hd] at hfx
          have hkveq : (x, pySortStr deps) = kv := Option.some_inj.mp hfx
          have hdnd : deps.Nodup := (hv _ (mem_of_alookup_eq_some ha)).2
          have hsortnd : (pySortStr deps).Nodup := (pySortStr_perm deps).nodup_iff.mpr hdnd
          constructor
          · rw [← hkveq]
            exact pySet_of_nodup _ hsortnd
          · rw [← hkveq]
            intro hc
            have hc' : pySortStr deps = [] := hc
            have hpc := pySortStr_perm deps
            rw [hc'] at hpc
            exact hd hpc.symm.eq_nil
  have hfd : (descriptor_from_dict (descriptor_to_dict pd (some incl))).dependencies
      = (descriptor_to_dict pd (some incl)).depends := by
    simp only [descriptor_from_dict]
    apply filterMap_id_of_some
    intro kv hkv
    obtain ⟨hset, hne⟩ := hchar kv hkv
    simp [hset, hne]
  have hshape2 : (descriptor_to_dict pd (some incl)).depends
      = canonicalDepKinds.filterMap fun x =>
          ((alookup x pd.dependencies).bind fun deps =>
            if deps = [] then none else some (pySortStr deps)).map fun w => (x, w) := by
    simp only [descriptor_to_dict]
    exact List.filterMap_congr fun x _ => depends_entry_shape pd.dependencies x
  refine ⟨rfl, rfl, rfl, ?_, ?_⟩
  · show (descriptor_to_dict pd (some incl)).metadata.getD [] = pd.metadata
    have h0 : (descriptor_to_dict pd (some incl)).metadata
        = some (pd.metadata.filter fun kv => incl.contains kv.1) := rfl
    rw [h0, Option.getD_some]
    exact filter_contains_id hmeta
  · intro k
    rw [hfd, hshape2,
      alookup_filterMap_keys _ canonicalDepKinds (by decide) k]
    by_cases hkin : k ∈ canonicalDepKinds
    · rw [if_pos hkin]
      cases ha : alookup k pd.dependencies with
      | none => rfl
      | some deps =>
          have hdmem := mem_of_alookup_eq_some ha
          have hdne : deps ≠ [] := (hv _ hdmem).1
          simp only [Option.bind, if_neg hdne, Option.map_some']
          rw [List.toFinset_eq_of_perm _ _ (pySortStr_perm deps)]
    · have hnone : alookup k pd.dependencies = none := by
        cases ha : alookup k pd.dependencies with
        | none => rfl
        | some deps => exact absurd (hk _ (mem_of_alookup_eq_some ha)) hkin
      rw [if_neg hkin, hnone]

/-- C4 direction 2 (package level): serializing a descriptor rebuilt from a
canonical dict, with the same metadata allowlist, reproduces the dict
byte-exactly. -/
theorem roundtrip_pkg_d2 (d : PkgDict) (incl : Option (List String))
    (hcanon : canonicalPkgDict d) (hmeta : metaCompat d.metadata incl = true) :
    descriptor_to_dict (descriptor_from_dict d) incl = d := by
  obtain ⟨hsub, hvals⟩ := hcanon
  have hfd : (descriptor_from_dict d).dependencies = d.depends := by
    simp only [descriptor_from_dict]
    apply filterMap_id_of_some
    intro kv hkv
    have hne := (hvals kv hkv).1
    have hnd : kv.2.Nodup := List.Pairwise.imp (fun hlt => ne_of_lt hlt) (hvals kv hkv).2
    have hset := pySet_of_nodup kv.2 hnd
    simp [hset, hne]
  have hdeps : (descriptor_to_dict (descriptor_from_dict d) incl).depends = d.depends := by
    have h0 : (descriptor_to_dict (descriptor_from_dict d) incl).depends
        = canonicalDepKinds.filterMap fun x =>
            ((alookup x d.depends).bind fun deps =>
              if deps = [] then none else some (pySortStr deps)).map fun w => (x, w) := by
      simp only [descriptor_to_dict, hfd]
      exact List.filterMap_congr fun x _ => depends_entry_shape d.depends x
    rw [h0, filterMap_alookup_restore _ canonicalDepKinds d.depends (by decide) hsub]
    apply filterMap_id_of_some
    intro kv hkv
    have hne := (hvals kv hkv).1
    have hsorted : List.Sorted (· ≤ ·) kv.2 :=
      List.Pairwise.imp (fun hlt => le_of_lt hlt) (hvals kv hkv).2
    simp [hne, pySortStr_of_sorted hsorted]
  have hmd : (descriptor_to_dict (descriptor_from_dict d) incl).metadata = d.metadata := by
    cases hdm : d.metadata with
    | none =>
        cases incl with
        | none => rfl
        | some A =>
            rw [hdm] at hmeta
            simp [metaCompat] at hmeta
    | some m =>
        cases incl with
        | none =>
            rw [hdm] at hmeta
            simp [metaCompat] at hmeta
        | some A =>
            have hall : ∀ kv ∈ m, kv.1 ∈ A := by
              rw [hdm] at hmeta
              simp only [metaCompat, List.all_eq_true] at hmeta
              intro kv hkvm
              exact mem_of_contains_eq_true (hmeta kv hkvm)
            have hfmd : (descriptor_from_dict d).metadata = m := by
              simp [descriptor_from_dict, hdm]
            have h0 : (descriptor_to_dict (descriptor_from_dict d) (some A)).metadata
                = some ((descriptor_from_dict d).metadata.filter fun kv => A.contains kv.1) :=
              rfl
            rw [h0, hfmd, filter_contains_id hall]
  exact pkgdict_ext rfl rfl rfl hdeps hmd

/-- C4 direction 2 (repository level): rehydrating a canonical repository
dict through `parse_packages_dicts` and re-serializing with `to_dict` under
the same allowlist reproduces the dict, provided the stored package list is
strictly sorted by name (names unique within a repository). -/
theorem roundtrip_repo_d2 (r : RepoDict) (incl : Option (List String)) (rd : RepoDesc)
    (hcanon : ∀ d ∈ r.packages, canonicalPkgDict d)
    (hpm : ∀ d ∈ r.packages, metaCompat d.metadata incl = true)
    (hrm : metaCompat r.metadata incl = true)
    (hsorted : List.Pairwise (fun a b : PkgDict => a.name < b.name) r.packages)
    (hty : rd.type = r.type) (hurl : rd.url = r.url) (hver : rd.version = r.version)
    (hmd : rd.metadata = r.metadata.getD []) :
    RepositoryDescriptor.to_dict
      (RepositoryDescriptor.parse_packages_dicts rd r.packages) incl = some r := by
  have hmap : (r.packages.map descriptor_from_dict).map (descriptor_to_dict · incl)
      = r.packages := by
    rw [List.map_map]
    calc r.packages.map ((descriptor_to_dict · incl) ∘ descriptor_from_dict)
        = r.packages.map id :=
          List.map_congr_left fun d hd => roundtrip_pkg_d2 d incl (hcanon d hd) (hpm d hd)
      _ = r.packages := List.map_id _
  have hsort2 : pySortBy pkgLeB r.packages = r.packages :=
    sortPkgs_self_of_names_sorted hsorted
  simp only [RepositoryDescriptor.to_dict, RepositoryDescriptor.packages_dicts,
    RepositoryDescriptor.parse_packages_dicts, RepositoryDescriptor.packages_dicts_list,
    Option.map_some']
  refine congrArg some (repodict_ext hty hurl hver ?_ ?_)
  · show pySortBy pkgLeB ((r.packages.map descriptor_from_dict).map (descriptor_to_dict · incl))
      = r.packages
    rw [hmap, hsort2]
  · show (incl.map fun i => rd.metadata.filter fun kv => i.contains kv.1) = r.metadata
    cases hrmeta : r.metadata with
    | none =>
        cases incl with
        | none => rfl
        | some A =>
            rw [hrmeta] at hrm
            simp [metaCompat] at hrm
    | some m =>
        cases incl with
        | none =>
            rw [hrmeta] at hrm
            simp [metaCompat] at hrm
        | some A =>
            have hall : ∀ kv ∈ m, kv.1 ∈ A := by
              rw [hrmeta] at hrm
              simp only [metaCompat, List.all_eq_true] at hrm
              intro kv hkvm
              exact mem_of_contains_eq_true (hrm kv hkvm)
            rw [Option.map_some', hmd, hrmeta, Option.getD_some,
              filter_contains_id hall]

/-- C4 counterexample: `descriptor_from_dict(descriptor_to_dict(pd))` does
NOT equal `pd` on all fields — serialization without an allowlist drops the
metadata, so a descriptor with non-empty metadata round-trips to one with
empty metadata. -/
theorem c4_roundtrip_counterexample :
    (descriptor_from_dict (descriptor_to_dict
        { name := "p", path := ".", type := "t", dependencies := [],
          metadata := [("k", MetaVal.i 1)] } none)).metadata = []
    ∧ (descriptor_from_dict (descriptor_to_dict
        { name := "p", path := ".", type := "t", dependencies := [],
          metadata := [("k", MetaVal.i 1)] } none)).metadata
      ≠ [("k", MetaVal.i 1)] :=
  ⟨by decide, by decide⟩

/-- C4 amended (corrected): the round trip restores every field only under
the canonicality the serializer can represent: (1) from a descriptor —
name, path and type always; metadata when the allowlist covers every
metadata key; dependencies (as dicts of sets) when every kind is one of
`build, run, test` and every dependency set is non-empty and duplicate-free;
(2) from a canonical dict, re-serializing the parsed descriptor with the
same metadata allowlist reproduces the dict byte-exactly; (3) likewise for
a repository dict through `parse_packages_dicts` / `to_dict` when its
package list is sorted by (unique) names. -/
theorem c4_roundtrip_amended :
    (∀ (pd : PkgDesc) (incl : List String),
      (∀ kv ∈ pd.dependencies, kv.1 ∈ canonicalDepKinds) →
      (∀ kv ∈ pd.dependencies, kv.2 ≠ [] ∧ kv.2.Nodup) →
      (∀ kv ∈ pd.metadata, kv.1 ∈ incl) →
      (descriptor_from_dict (descriptor_to_dict pd (some incl))).name = pd.name
      ∧ (descriptor_from_dict (descriptor_to_dict pd (some incl))).path = pd.path
      ∧ (descriptor_from_dict (descriptor_to_dict pd (some incl))).type = pd.type
      ∧ (descriptor_from_dict (descriptor_to_dict pd (some incl))).metadata = pd.metadata
      ∧ depsSetEquiv (descriptor_from_dict (descriptor_to_dict pd (some incl))).dependencies
          pd.dependencies)
    ∧ (∀ (d : PkgDict) (incl : Option (List String)),
        canonicalPkgDict d → metaCompat d.metadata incl = true →
        descriptor_to_dict (descriptor_from_dict d) incl = d)
    ∧ (∀ (r : RepoDict) (incl : Option (List String)) (rd : RepoDesc),
        (∀ d ∈ r.packages, canonicalPkgDict d) →
        (∀ d ∈ r.packages, metaCompat d.metadata incl = true) →
        metaCompat r.metadata incl = true →
        List.Pairwise (fun a b : PkgDict => a.name < b.name) r.packages →
        rd.type = r.type → rd.url = r.url → rd.version = r.version →
        rd.metadata = r.metadata.getD [] →
        RepositoryDescriptor.to_dict
          (RepositoryDescriptor.parse_packages_dicts rd r.packages) incl = some r) :=
  ⟨fun pd incl hk hv hmeta => roundtrip_pkg_d1 pd incl hk hv hmeta,
    fun d incl hcanon hmeta => roundtrip_pkg_d2 d incl hcanon hmeta,
    fun r incl rd hcanon hpm hrm hsorted hty hurl hver hmd =>
      roundtrip_repo_d2 r incl rd hcanon hpm hrm hsorted hty hurl hver hmd⟩

/-- Witness for C4 at a concrete canonical package dict. -/
theorem c4_roundtrip_witness :
    descriptor_to_dict (descriptor_from_dict
      { name := "p", path := ".", type := "t", depends := [("build", ["a", "z"])],
        metadata := none }) none
    = { name := "p", path := ".", type := "t", depends := [("build", ["a", "z"])],
        metadata := none } :=
  c4_roundtrip_amended.2.1
    { name := "p", path := ".", type := "t", depends := [("build", ["a", "z"])],
      metadata := none }
    none
    ⟨by decide, by
      intro kv hkv
      simp only [List.mem_singleton] at hkv
      subst hkv
      refine ⟨by simp, ?_⟩
      have haz : ("a" : String) < "z" := String.lt_iff_toList_lt.mpr (by decide)
      exact List.pairwise_cons.mpr
        ⟨fun b hb => by
          simp only [List.mem_singleton] at hb
          rw [hb]
          exact haz,
        List.pairwise_singleton _ _⟩⟩
    (by decide)

end ColconDistro
